import Mathlib

/-!
Verification of the interactive PTY session drivers of this repository
(`automate_pty.py`, `ssh_client.py`, `scp_client.py`, `sync_file_to_pi.py`).

Modelling conventions (shallow embedding):

* A byte is a `ℕ` (0 ≤ b < 256 in practice); a byte string is a `List ℕ`.
* The pty master side delivers bytes to the parent as a sequence of reads.
  We model one session's stream as a finite `List (List ℕ)` of chunks:
  `readChunk s i` is what the `i`-th call to `os.read(fd, 1024)` returns.
  Past the end of the list, and at an explicitly empty chunk, the read
  returns `[]`, which models both end-of-stream (`b""`) and an `OSError`
  on the pty — the Python code treats both as "stop reading" (`break`).
* Wall-clock time is modelled in milliseconds.  `time.sleep(0.05)` advances
  the clock by 50, `time.sleep(0.1)` by 100.  The duration of the `i`-th
  `os.read` call is a parameter `d i` (the Python read is blocking; a read
  that returns promptly has `d i = 0`).  `time.time() - start_time < timeout`
  is the guard `t < T` with `T` the timeout in milliseconds.
* The loops `while time.time() - start_time < timeout` are written with an
  explicit fuel argument.  Each iteration advances the clock by at least
  50 ms, so `T / 50 + 1` iterations always outrun the guard: the fuel-zero
  branch returns exactly what the guard-failure branch returns and is
  unreachable before the guard fails.  This keeps every definition
  structurally recursive and hence evaluable by `decide` / `rfl`.
* Side effects of the parent process are recorded as a trace of events
  (`Ev`): writes into the pty, forwarding a chunk to stdout, sleeps,
  `os.kill(pid, 9)`, `os.waitpid(pid, 0)`, closing the channel (never
  performed by this code), and diagnostic prints.  Reads themselves are
  not events; their results are already determined by the stream.
-/

namespace ArtisNova

/-- Bytes of an ASCII string literal, as used for the Python byte literals
and `marker.encode()` (all markers in the source are ASCII). -/
def strBytes (s : String) : List ℕ := s.data.map Char.toNat

/-- Python `bytes.lower()`: lowercases the ASCII letters `A`–`Z` (byte values
65–90) and leaves every other byte unchanged. -/
def lowerBytes (l : List ℕ) : List ℕ :=
  l.map (fun b => if 65 ≤ b ∧ b ≤ 90 then b + 32 else b)

/-- Python `needle in hay` on bytes: substring occurrence.  The empty needle
occurs in every haystack, as in Python. -/
def containsBytes : List ℕ → List ℕ → Bool
  | needle, [] => needle.isEmpty
  | needle, b :: t => needle.isPrefixOf (b :: t) || containsBytes needle t

/-- Result of the `i`-th `os.read(fd, 1024)`: the `i`-th chunk of the
stream, or `[]` (end-of-stream / `OSError`) past the end. -/
def readChunk (s : List (List ℕ)) (i : ℕ) : List ℕ := s.getD i []

/-- Clock value at the start of iteration `k` of a 50 ms-poll read loop
whose reads take `d 0, d 1, …` milliseconds: each earlier iteration cost
one read plus one `time.sleep(0.05)`. -/
def timeAt (d : ℕ → ℕ) : ℕ → ℕ
  | 0 => 0
  | k + 1 => timeAt d k + d k + 50

/-- Outcome of `automate_pty.read_until`: the accumulated buffer, the marker
returned (`none` when the loop ended by timeout or end-of-stream), the index
of the next unread chunk, and the clock value at the `return`. -/
structure ReadOut where
  buf : List ℕ
  found : Option (List ℕ)
  next : ℕ
  rtime : ℕ
  deriving DecidableEq

/-- Outcome of the single-marker `read_until` variants (`ssh_client.py`,
`scp_client.py`, `sync_file_to_pi.py`).  Those functions return only the
buffer; `matched` records which `return` statement fired (`true` for the
in-loop return on a marker hit, `false` for the fall-through return). -/
structure ReadOutB where
  buf : List ℕ
  matched : Bool
  next : ℕ
  rtime : ℕ
  deriving DecidableEq

/-- The marker test of `automate_pty.read_until`:
`for marker in markers: if marker.encode().lower() in buf.lower(): return buf, marker`.
`List.find?` returns the first marker in declaration order whose lowercased
bytes occur in the lowercased buffer. -/
def findMarker (markers : List (List ℕ)) (buf : List ℕ) : Option (List ℕ) :=
  markers.find? (fun m => containsBytes (lowerBytes m) (lowerBytes buf))

/-- Loop body of `automate_pty.read_until` (multi-marker, case-insensitive,
`time.sleep(0.05)`).  Arguments after the timeout `T`: fuel, next chunk
index `i`, clock `t`, accumulated buffer `buf`.  The fuel-zero branch
coincides with the guard-failure branch and is unreachable while
`T ≤ t + 50 * fuel`. -/
def readUntilAux (markers : List (List ℕ)) (s : List (List ℕ)) (d : ℕ → ℕ) (T : ℕ) :
    ℕ → ℕ → ℕ → List ℕ → ReadOut
  | 0, i, t, buf => ⟨buf, none, i, t⟩
  | fuel + 1, i, t, buf =>
    if t < T then
      if readChunk s i = [] then ⟨buf, none, i, t⟩
      else
        match findMarker markers (buf ++ readChunk s i) with
        | some m => ⟨buf ++ readChunk s i, some m, i + 1, t⟩
        | none => readUntilAux markers s d T fuel (i + 1) (t + d i + 50) (buf ++ readChunk s i)
    else ⟨buf, none, i, t⟩

/-- `automate_pty.read_until(fd, markers, timeout)`, reading the stream
starting at chunk index `i`. -/
def read_until (markers : List (List ℕ)) (s : List (List ℕ)) (d : ℕ → ℕ) (T : ℕ)
    (i : ℕ) : ReadOut :=
  readUntilAux markers s d T (T / 50 + 1) i 0 []

/-- The marker test of `ssh_client.read_until`: `marker.encode() in buf`
(case sensitive), plus the backup check
`b"Password:" in buf or b"password:" in buf`. -/
def sshHit (marker buf : List ℕ) : Bool :=
  containsBytes marker buf ||
    (containsBytes (strBytes "Password:") buf || containsBytes (strBytes "password:") buf)

/-- Loop body of `ssh_client.read_until` (single marker, case-sensitive with
the fixed backup check, `time.sleep(0.05)`). -/
def sshReadUntilAux (marker : List ℕ) (s : List (List ℕ)) (d : ℕ → ℕ) (T : ℕ) :
    ℕ → ℕ → ℕ → List ℕ → ReadOutB
  | 0, i, t, buf => ⟨buf, false, i, t⟩
  | fuel + 1, i, t, buf =>
    if t < T then
      if readChunk s i = [] then ⟨buf, false, i, t⟩
      else if sshHit marker (buf ++ readChunk s i) then ⟨buf ++ readChunk s i, true, i + 1, t⟩
      else sshReadUntilAux marker s d T fuel (i + 1) (t + d i + 50) (buf ++ readChunk s i)
    else ⟨buf, false, i, t⟩

/-- `ssh_client.read_until(fd, marker, timeout)` starting at chunk `i`. -/
def ssh_read_until (marker : List ℕ) (s : List (List ℕ)) (d : ℕ → ℕ) (T : ℕ)
    (i : ℕ) : ReadOutB :=
  sshReadUntilAux marker s d T (T / 50 + 1) i 0 []

/-- Loop body of the identical `read_until` of `scp_client.py` and
`sync_file_to_pi.py` (single marker, case-sensitive, no backup check,
`time.sleep(0.1)`). -/
def plainReadUntilAux (marker : List ℕ) (s : List (List ℕ)) (d : ℕ → ℕ) (T : ℕ) :
    ℕ → ℕ → ℕ → List ℕ → ReadOutB
  | 0, i, t, buf => ⟨buf, false, i, t⟩
  | fuel + 1, i, t, buf =>
    if t < T then
      if readChunk s i = [] then ⟨buf, false, i, t⟩
      else if containsBytes marker (buf ++ readChunk s i) then
        ⟨buf ++ readChunk s i, true, i + 1, t⟩
      else plainReadUntilAux marker s d T fuel (i + 1) (t + d i + 100) (buf ++ readChunk s i)
    else ⟨buf, false, i, t⟩

/-- `read_until(fd, marker, timeout)` of `scp_client.py` / `sync_file_to_pi.py`
starting at chunk `i`. -/
def plain_read_until (marker : List ℕ) (s : List (List ℕ)) (d : ℕ → ℕ) (T : ℕ)
    (i : ℕ) : ReadOutB :=
  plainReadUntilAux marker s d T (T / 100 + 1) i 0 []

/-- The chunks delivered by the `while True: chunk = os.read(fd, 1024); if not
chunk: break` drain loops, reading from index `i` until the first empty read.
Fuel-zero is unreachable with fuel `s.length + 1`: reading at any index
`≥ s.length` yields `[]`. -/
def drainAux (s : List (List ℕ)) : ℕ → ℕ → List (List ℕ)
  | 0, _ => []
  | fuel + 1, i =>
    if readChunk s i = [] then [] else readChunk s i :: drainAux s fuel (i + 1)

/-- All chunks a drain loop reads starting at index `i`. -/
def drainFrom (s : List (List ℕ)) (i : ℕ) : List (List ℕ) :=
  drainAux s (s.length + 1) i

/-- Parent-side side effects of a session driver, in program order. -/
inductive Ev where
  | spawn
  | write (data : List ℕ)
  | fwd (data : List ℕ)
  | sleepMs (ms : ℕ)
  | kill
  | wait
  | close
  | printOut (data : List ℕ)
  | printErr (data : List ℕ)
  deriving DecidableEq

/-- `b"password:"`, the credential-prompt marker. -/
def pwMarker : List ℕ := strBytes "password:"

/-- `b"Password:"`, the capitalised form checked explicitly by
`ssh_client.py`, `scp_client.py` and `sync_file_to_pi.py`. -/
def pwMarkerCap : List ℕ := strBytes "Password:"

/-- `b"yes/no"`, the host-key confirmation marker of `automate_pty.py`. -/
def ynMarker : List ℕ := strBytes "yes/no"

/-- First prompt wait of `automate_pty.run_with_password`:
`read_until(fd, ["password:", "yes/no"], timeout=10)`. -/
def rwpFirst (s : List (List ℕ)) (d : ℕ → ℕ) : ReadOut :=
  read_until [pwMarker, ynMarker] s d 10000 0

/-- Second prompt wait of `automate_pty.run_with_password`, performed after
the `yes/no` confirmation: `read_until(fd, ["password:"], timeout=10)`. -/
def rwpSecond (s : List (List ℕ)) (d : ℕ → ℕ) : ReadOut :=
  read_until [pwMarker] s d 10000 (rwpFirst s d).next

/-- Parent branch of `automate_pty.run_with_password`.  If the first wait
matched `"yes/no"`, write `b"yes\n"` and wait again for `"password:"`; if the
(resulting) wait matched `"password:"`, write the credential plus newline and
forward the remaining output to stdout; otherwise print the partial buffer,
kill the child; finally `os.waitpid(pid, 0)` on every path. -/
def runWithPasswordTrace (s : List (List ℕ)) (d : ℕ → ℕ) (pw : List ℕ) : List Ev :=
  let r1 := rwpFirst s d
  let pre : List Ev := if r1.found = some ynMarker then [Ev.write (strBytes "yes\n")] else []
  let r : ReadOut := if r1.found = some ynMarker then rwpSecond s d else r1
  pre ++
    (if r.found = some pwMarker then
      Ev.write (pw ++ [10]) :: (drainFrom s r.next).map Ev.fwd
    else [Ev.printErr r.buf, Ev.kill]) ++
    [Ev.wait]

/-- Parent branch of `ssh_client.run_ssh_command`.  The Python code binds the
exit status from `os.waitpid` but never uses it, and it prints the captured
output decoded to text with CRLF normalisation; the event records the raw
captured bytes.  Note: on the no-prompt path the child is killed but there is
no `os.waitpid` call. -/
def runSshTrace (s : List (List ℕ)) (d : ℕ → ℕ) (pw : List ℕ) : List Ev :=
  let r := ssh_read_until pwMarker s d 10000 0
  if containsBytes pwMarker r.buf || containsBytes pwMarkerCap r.buf then
    [Ev.write (pw ++ [10]), Ev.wait, Ev.printOut ((drainFrom s r.next).flatten)]
  else
    [Ev.printErr r.buf, Ev.kill]

/-- The per-chunk marker test of the `scp_client.run_scp` relay loop:
`if b"password:" in chunk or b"Password:" in chunk` — note it inspects the
newest chunk only, not the accumulated buffer. -/
def scpHit (c : List ℕ) : Bool :=
  containsBytes pwMarker c || containsBytes pwMarkerCap c

/-- Relay loop of `scp_client.run_scp`: read a chunk; stop on an empty read;
append the chunk to `output_data`; if the chunk contains the credential
marker, write the credential plus newline.  Returns the accumulated
`output_data` and the write events, in order.  Fuel as in `drainAux`. -/
def scpRelayAux (s : List (List ℕ)) (pw : List ℕ) : ℕ → ℕ → List ℕ × List Ev
  | 0, _ => ([], [])
  | fuel + 1, i =>
    if readChunk s i = [] then ([], [])
    else
      (readChunk s i ++ (scpRelayAux s pw fuel (i + 1)).1,
       (if scpHit (readChunk s i) then [Ev.write (pw ++ [10])] else []) ++
         (scpRelayAux s pw fuel (i + 1)).2)

/-- The full relay phase of `scp_client.run_scp`. -/
def scpRelay (s : List (List ℕ)) (pw : List ℕ) : List ℕ × List Ev :=
  scpRelayAux s pw (s.length + 1) 0

/-- Reported outcome of `scp_client.run_scp`. -/
inductive ScpOutcome where
  | success
  | failure
  deriving DecidableEq

/-- Parent branch of `scp_client.run_scp`: relay loop, then
`os.waitpid`; `ec` is `os.WEXITSTATUS(status)` of the child.  On zero it
prints "Transfer successful"; otherwise "Transfer failed" and the full
accumulated transcript. -/
def runScp (s : List (List ℕ)) (pw : List ℕ) (ec : ℕ) : List Ev × ScpOutcome :=
  let p := scpRelay s pw
  (p.2 ++ [Ev.wait] ++
      (if ec = 0 then [Ev.printOut (strBytes "Transfer successful")]
       else [Ev.printOut (strBytes "Transfer failed"), Ev.printOut p.1]),
   if ec = 0 then ScpOutcome.success else ScpOutcome.failure)

/-- The base64 alphabet, as byte values. -/
def b64Alphabet : List ℕ :=
  strBytes "ABCDEFGHIJKLMNOPQRSTUVWXYZabcdefghijklmnopqrstuvwxyz0123456789+/"

/-- Character (byte) of a 6-bit group. -/
def b64Char (n : ℕ) : ℕ := b64Alphabet.getD n 0

/-- `base64.b64encode` on a byte string (with `=` padding, byte 61): three
input bytes become four alphabet bytes. -/
def base64Encode : List ℕ → List ℕ
  | [] => []
  | [a] => [b64Char (a / 4), b64Char (a % 4 * 16), 61, 61]
  | [a, b] => [b64Char (a / 4), b64Char (a % 4 * 16 + b / 16), b64Char (b % 16 * 4), 61]
  | a :: b :: c :: rest =>
    b64Char (a / 4) :: b64Char (a % 4 * 16 + b / 16) :: b64Char (b % 16 * 4 + c / 64) ::
      b64Char (c % 64) :: base64Encode rest

/-- `encoded[i:i+C]` slices of `sync_file`'s chunk loop
`for i in range(0, len(encoded), chunk_size)`.  Fuel-zero is unreachable with
fuel `l.length` whenever `0 < C` (each step drops at least one element); for
`C = 0` Python's `range` raises, so `C > 0` is assumed by every theorem. -/
def chunksOfAux (C : ℕ) : ℕ → List ℕ → List (List ℕ)
  | 0, _ => []
  | fuel + 1, l => if l = [] then [] else l.take C :: chunksOfAux C fuel (l.drop C)

/-- The successive chunks of size at most `C` covering `l`. -/
def chunksOf (C : ℕ) (l : List ℕ) : List (List ℕ) := chunksOfAux C l.length l

/-- Chunked-upload phase of `sync_file`: write each chunk of the encoded
payload followed by `time.sleep(0.01)`, then write `b"\n"`, then write
`b"\x04"`.  The channel is never closed. -/
def uploadEvents (P : List ℕ) (C : ℕ) : List Ev :=
  (chunksOf C P).flatMap (fun c => [Ev.write c, Ev.sleepMs 10]) ++
    [Ev.write [10], Ev.write [4]]

/-- Reported outcome of `sync_file_to_pi.sync_file`. -/
inductive SyncResult where
  | fileError
  | promptNotFound
  | reportedSynced
  deriving DecidableEq

/-- `sync_file_to_pi.sync_file`.  `file` is the result of opening and reading
the local file (`none` models an `open`/`read` exception, which propagates
before `pty.fork()`); `ec` is the child's exit status, which the Python code
binds from `os.waitpid` but never consults.  On the success path it prints
the "File … synced" message (recorded as `printOut` of "synced") regardless of
`ec`; on the no-prompt path it prints the buffer and kills the child without
an `os.waitpid`. -/
def syncFile (file : Option (List ℕ)) (s : List (List ℕ)) (d : ℕ → ℕ)
    (pw : List ℕ) (ec : ℕ) : List Ev × SyncResult :=
  match file with
  | none => ([], SyncResult.fileError)
  | some content =>
    let r := plain_read_until pwMarker s d 10000 0
    if containsBytes pwMarker r.buf || containsBytes pwMarkerCap r.buf then
      (Ev.spawn :: Ev.write (pw ++ [10]) :: Ev.sleepMs 1000 ::
          (uploadEvents (base64Encode content) 4096 ++
            [Ev.wait, Ev.printOut (strBytes "synced")]),
       SyncResult.reportedSynced)
    else
      (Ev.spawn :: [Ev.printErr r.buf, Ev.kill], SyncResult.promptNotFound)

/-! ### Basic lemmas about byte-string search and stream prefixes -/

lemma containsBytes_nil_left (h : List ℕ) : containsBytes [] h = true := by
  cases h <;> simp [containsBytes, List.isPrefixOf]

lemma isPrefixOf_append : ∀ (n h t : List ℕ), n.isPrefixOf h = true → n.isPrefixOf (h ++ t) = true
  | [], h, t, _ => by cases h <;> simp [List.isPrefixOf]
  | a :: n', [], t, hp => by simp [List.isPrefixOf] at hp
  | a :: n', b :: h', t, hp => by
    simp only [List.cons_append]
    simp only [List.isPrefixOf, Bool.and_eq_true, beq_iff_eq] at hp ⊢
    exact ⟨hp.1, isPrefixOf_append n' h' t hp.2⟩

lemma containsBytes_append : ∀ (n h t : List ℕ),
    containsBytes n h = true → containsBytes n (h ++ t) = true
  | n, [], t, hc => by
    cases n with
    | nil => exact containsBytes_nil_left t
    | cons a m => simp [containsBytes, List.isEmpty] at hc
  | n, b :: h', t, hc => by
    simp only [List.cons_append]
    simp only [containsBytes, Bool.or_eq_true] at hc ⊢
    rcases hc with hp | hr
    · exact Or.inl (by simpa using isPrefixOf_append n (b :: h') t hp)
    · exact Or.inr (containsBytes_append n h' t hr)

lemma containsBytes_false_of_append (n a b : List ℕ)
    (h : containsBytes n (a ++ b) = false) : containsBytes n a = false := by
  cases hc : containsBytes n a with
  | false => rfl
  | true => simp [containsBytes_append n a b hc] at h

lemma lowerBytes_append (a b : List ℕ) :
    lowerBytes (a ++ b) = lowerBytes a ++ lowerBytes b :=
  List.map_append ..

lemma flatten_take_succ (s : List (List ℕ)) (i : ℕ) :
    (s.take (i + 1)).flatten = (s.take i).flatten ++ readChunk s i := by
  rw [List.take_succ, List.flatten_append]
  congr 1
  by_cases h : i < s.length
  · simp [readChunk, List.getD_eq_getElem?_getD, List.getElem?_eq_getElem h]
  · simp [readChunk, List.getD_eq_getElem?_getD, List.getElem?_eq_none (Nat.le_of_not_lt h)]

lemma flatten_take_le (s : List (List ℕ)) {i k : ℕ} (hik : i ≤ k) :
    ∃ t, (s.take k).flatten = (s.take i).flatten ++ t := by
  refine ⟨((s.take k).drop i).flatten, ?_⟩
  rw [← List.flatten_append]
  congr 1
  have h1 : s.take i = (s.take k).take i := by
    rw [List.take_take, Nat.min_eq_left hik]
  rw [h1, List.take_append_drop]

lemma flatten_take_drop (s : List (List ℕ)) (k : ℕ) :
    s.flatten = (s.take k).flatten ++ (s.drop k).flatten := by
  rw [← List.flatten_append, List.take_append_drop]

lemma timeAt_mono (d : ℕ → ℕ) {i k : ℕ} (h : i ≤ k) : timeAt d i ≤ timeAt d k := by
  induction h with
  | refl => exact Nat.le_refl _
  | step h ih =>
    refine Nat.le_trans ih ?_
    show timeAt d _ ≤ timeAt d _ + _ + 50
    omega

lemma timeAt_ge (d : ℕ → ℕ) (k : ℕ) : 50 * k ≤ timeAt d k := by
  induction k with
  | zero => simp [timeAt]
  | succ k ih => simp only [timeAt]; omega

/-! ### Behaviour of `automate_pty.read_until` -/

/-- Invariant proof for the multi-marker matcher: starting from a buffer that
is a prefix-concatenation of the stream with no marker occurrence, the result
buffer is again a prefix-concatenation of the stream; a returned marker is the
first declared marker whose lowercased text occurs in the lowercased final
buffer; and when no marker is returned, no configured marker occurs in the
final buffer. -/
lemma readUntilAux_spec (markers : List (List ℕ)) (s : List (List ℕ)) (d : ℕ → ℕ) (T : ℕ) :
    ∀ fuel i t buf, buf = (s.take i).flatten →
      (∀ m ∈ markers, containsBytes (lowerBytes m) (lowerBytes buf) = false) →
      ((∀ m, (readUntilAux markers s d T fuel i t buf).found = some m →
          findMarker markers (readUntilAux markers s d T fuel i t buf).buf = some m) ∧
       ((readUntilAux markers s d T fuel i t buf).found = none →
          ∀ m ∈ markers, containsBytes (lowerBytes m)
            (lowerBytes (readUntilAux markers s d T fuel i t buf).buf) = false) ∧
       (∃ k, (readUntilAux markers s d T fuel i t buf).buf = (s.take k).flatten)) := by
  intro fuel
  induction fuel with
  | zero =>
    intro i t buf hbuf hnm
    exact ⟨fun m hm => by simp [readUntilAux] at hm, fun _ => hnm, ⟨i, hbuf⟩⟩
  | succ fuel ih =>
    intro i t buf hbuf hnm
    by_cases ht : t < T
    · by_cases hc : readChunk s i = []
      · simp only [readUntilAux, if_pos ht, if_pos hc]
        exact ⟨fun m hm => by simp at hm, fun _ => hnm, ⟨i, hbuf⟩⟩
      · have hbuf' : buf ++ readChunk s i = (s.take (i + 1)).flatten := by
          rw [hbuf, flatten_take_succ]
        rcases hfm : findMarker markers (buf ++ readChunk s i) with _ | m
        · simp only [readUntilAux, if_pos ht, if_neg hc, hfm]
          refine ih (i + 1) (t + d i + 50) (buf ++ readChunk s i) hbuf' ?_
          intro m hmem
          exact Bool.eq_false_iff.mpr (List.find?_eq_none.mp hfm m hmem)
        · simp only [readUntilAux, if_pos ht, if_neg hc, hfm]
          refine ⟨?_, ?_, ⟨i + 1, hbuf'⟩⟩
          · intro m' hm'
            obtain rfl : m = m' := by simpa using hm'
            rfl
          · intro h
            simp at h
    · simp only [readUntilAux, if_neg ht]
      exact ⟨fun m hm => by simp at hm, fun _ => hnm, ⟨i, hbuf⟩⟩

/-- If the stream first delivers an empty read at index `k`, the clock is
still below the timeout when that read happens, and no configured marker
occurs (case-insensitively) in the concatenation of the first `k` chunks,
then the loop returns exactly that concatenation with no marker. -/
lemma readUntilAux_eof (markers s : List (List ℕ)) (d : ℕ → ℕ) (T k : ℕ)
    (hEOF : readChunk s k = [])
    (hpre : ∀ i < k, readChunk s i ≠ [])
    (hT : timeAt d k < T)
    (hnm : ∀ m ∈ markers,
      containsBytes (lowerBytes m) (lowerBytes ((s.take k).flatten)) = false) :
    ∀ fuel i, i ≤ k → k - i < fuel →
      readUntilAux markers s d T fuel i (timeAt d i) ((s.take i).flatten) =
        ⟨(s.take k).flatten, none, k, timeAt d k⟩ := by
  intro fuel
  induction fuel with
  | zero => intro i hik hfuel; omega
  | succ fuel ih =>
    intro i hik hfuel
    have ht : timeAt d i < T := Nat.lt_of_le_of_lt (timeAt_mono d hik) hT
    by_cases hike : i = k
    · subst hike
      simp only [readUntilAux, if_pos ht, if_pos hEOF]
    · have hik' : i < k := Nat.lt_of_le_of_ne hik hike
      have hc : readChunk s i ≠ [] := hpre i hik'
      have hbuf' : (s.take i).flatten ++ readChunk s i = (s.take (i + 1)).flatten :=
        (flatten_take_succ s i).symm
      have hfm : findMarker markers ((s.take i).flatten ++ readChunk s i) = none := by
        apply List.find?_eq_none.mpr
        intro m hmem
        simp only [Bool.not_eq_true]
        rw [hbuf']
        obtain ⟨t0, ht0⟩ := flatten_take_le s (Nat.succ_le_of_lt hik')
        have hfl := hnm m hmem
        rw [ht0, lowerBytes_append] at hfl
        exact containsBytes_false_of_append _ _ _ hfl
      simp only [readUntilAux, if_pos ht, if_neg hc, hfm]
      rw [hbuf']
      exact ih (i + 1) hik' (by omega)

/-- C8-style end-of-stream behaviour, at the function boundary. -/
lemma read_until_eof (markers s : List (List ℕ)) (d : ℕ → ℕ) (T k : ℕ)
    (hEOF : readChunk s k = [])
    (hpre : ∀ i < k, readChunk s i ≠ [])
    (hT : timeAt d k < T)
    (hnm : ∀ m ∈ markers,
      containsBytes (lowerBytes m) (lowerBytes ((s.take k).flatten)) = false) :
    read_until markers s d T 0 = ⟨(s.take k).flatten, none, k, timeAt d k⟩ := by
  have h50 : 50 * k ≤ timeAt d k := timeAt_ge d k
  have hk : k - 0 < T / 50 + 1 := by omega
  exact readUntilAux_eof markers s d T k hEOF hpre hT hnm (T / 50 + 1) 0 (Nat.zero_le k) hk

/-- If every read is instantaneous, every read up to the timeout yields data,
and no configured marker ever occurs in the whole stream, the loop runs out
its guard: it ends with no marker, within one poll interval past the timeout,
holding a prefix-concatenation of the stream. -/
lemma readUntilAux_timeout (markers s : List (List ℕ)) (d : ℕ → ℕ) (T : ℕ)
    (hd : ∀ i, d i = 0)
    (hne : ∀ i, 50 * i < T → readChunk s i ≠ [])
    (hnm : ∀ m ∈ markers, containsBytes (lowerBytes m) (lowerBytes s.flatten) = false) :
    ∀ fuel i buf, buf = (s.take i).flatten → (i = 0 ∨ 50 * (i - 1) < T) →
      ((readUntilAux markers s d T fuel i (50 * i) buf).found = none ∧
       (readUntilAux markers s d T fuel i (50 * i) buf).rtime < T + 50 ∧
       ∃ k, (readUntilAux markers s d T fuel i (50 * i) buf).buf = (s.take k).flatten) := by
  intro fuel
  induction fuel with
  | zero =>
    intro i buf hbuf hinv
    refine ⟨rfl, ?_, ⟨i, hbuf⟩⟩
    show 50 * i < T + 50
    rcases hinv with h0 | h1 <;> omega
  | succ fuel ih =>
    intro i buf hbuf hinv
    by_cases ht : 50 * i < T
    · have hc : readChunk s i ≠ [] := hne i ht
      have hbuf' : buf ++ readChunk s i = (s.take (i + 1)).flatten := by
        rw [hbuf, flatten_take_succ]
      have hfm : findMarker markers (buf ++ readChunk s i) = none := by
        apply List.find?_eq_none.mpr
        intro m hmem
        simp only [Bool.not_eq_true]
        rw [hbuf']
        have hfl := hnm m hmem
        rw [flatten_take_drop s (i + 1), lowerBytes_append] at hfl
        exact containsBytes_false_of_append _ _ _ hfl
      simp only [readUntilAux, if_pos ht, if_neg hc, hfm]
      have harg : 50 * i + d i + 50 = 50 * (i + 1) := by rw [hd i]; ring
      rw [harg, hbuf']
      exact ih (i + 1) _ rfl (Or.inr (by omega))
    · simp only [readUntilAux, if_neg ht]
      refine ⟨by trivial, ?_, ⟨i, hbuf⟩⟩
      show 50 * i < T + 50
      rcases hinv with h0 | h1 <;> omega

/-! ### Behaviour of the scp relay loop -/

/-- The relay loop of `run_scp` accumulates exactly the chunks a drain loop
would read, and its write events are one credential write per chunk that
contains the marker, in chunk order. -/
lemma scpRelayAux_spec (s : List (List ℕ)) (pw : List ℕ) :
    ∀ fuel i, scpRelayAux s pw fuel i =
      ((drainAux s fuel i).flatten,
       (drainAux s fuel i).filterMap
         (fun c => if scpHit c then some (Ev.write (pw ++ [10])) else none)) := by
  intro fuel
  induction fuel with
  | zero => intro i; rfl
  | succ fuel ih =>
    intro i
    by_cases hc : readChunk s i = []
    · simp only [scpRelayAux, drainAux, if_pos hc]
      rfl
    · simp only [scpRelayAux, drainAux, if_neg hc, ih (i + 1), List.filterMap_cons,
        List.flatten_cons]
      by_cases hh : scpHit (readChunk s i) <;> simp [hh]

/-- Counting helper: the filterMap above produces exactly one event per
matching chunk. -/
lemma countP_filterMap_const (w : Ev) (p : List ℕ → Bool) :
    ∀ l : List (List ℕ),
      ((l.filterMap (fun c => if p c then some w else none)).countP
          (fun e => decide (e = w))) = l.countP p := by
  intro l
  induction l with
  | nil => rfl
  | cons c l ih =>
    by_cases hc : p c <;>
      simp [List.filterMap_cons, hc, List.countP_cons, ih]

/-! ### Behaviour of the chunked uploader -/

lemma chunksOfAux_flatten (C : ℕ) (hC : 0 < C) :
    ∀ fuel l, l.length ≤ fuel → (chunksOfAux C fuel l).flatten = l := by
  intro fuel
  induction fuel with
  | zero =>
    intro l hl
    have : l = [] := List.length_eq_zero.mp (Nat.le_zero.mp hl)
    subst this; rfl
  | succ fuel ih =>
    intro l hl
    by_cases hnil : l = []
    · subst hnil; rfl
    · simp only [chunksOfAux, if_neg hnil, List.flatten_cons]
      rw [ih (l.drop C) (by simp [List.length_drop]; omega), List.take_append_drop]

lemma chunksOfAux_length (C : ℕ) (hC : 0 < C) :
    ∀ fuel l, l.length ≤ fuel →
      (chunksOfAux C fuel l).length = (l.length + C - 1) / C := by
  intro fuel
  induction fuel with
  | zero =>
    intro l hl
    have : l = [] := List.length_eq_zero.mp (Nat.le_zero.mp hl)
    subst this
    simp only [chunksOfAux, List.length_nil]
    exact (Nat.div_eq_of_lt (by omega)).symm
  | succ fuel ih =>
    intro l hl
    by_cases hnil : l = []
    · subst hnil
      simp only [chunksOfAux, if_pos rfl, List.length_nil]
      exact (Nat.div_eq_of_lt (by omega)).symm
    · have hpos : 0 < l.length := List.length_pos.mpr hnil
      simp only [chunksOfAux, if_neg hnil, List.length_cons]
      rw [ih (l.drop C) (by simp [List.length_drop]; omega)]
      simp only [List.length_drop]
      rcases le_or_lt l.length C with hle | hlt
      · have h1 : l.length - C = 0 := by omega
        rw [h1]
        rw [Nat.div_eq_of_lt (by omega : 0 + C - 1 < C)]
        have h2 : l.length + C - 1 = (l.length - 1) + C := by omega
        rw [h2, Nat.add_div_right _ hC, Nat.div_eq_of_lt (by omega : l.length - 1 < C)]
      · have h1 : l.length - C + C - 1 = (l.length - C - 1) + C := by omega
        have h2 : l.length + C - 1 = (l.length - 1) + C := by omega
        rw [h1, h2, Nat.add_div_right _ hC, Nat.add_div_right _ hC]
        have h3 : l.length - C - 1 + C = l.length - 1 := by omega
        rw [← h3]
        rw [Nat.add_div_right _ hC]

lemma chunksOfAux_sizes (C : ℕ) :
    ∀ fuel l, ∀ c ∈ chunksOfAux C fuel l, c.length ≤ C := by
  intro fuel
  induction fuel with
  | zero => intro l c hc; simp [chunksOfAux] at hc
  | succ fuel ih =>
    intro l c hc
    by_cases hnil : l = []
    · subst hnil; simp [chunksOfAux] at hc
    · simp only [chunksOfAux, if_neg hnil, List.mem_cons] at hc
      rcases hc with rfl | hc
      · simp [List.length_take]
      · exact ih (l.drop C) c hc

/-- The sequence of byte strings written into the channel by a trace, in
order (other events discarded). -/
def writePayloads (l : List Ev) : List (List ℕ) :=
  l.filterMap (fun e => match e with | Ev.write data => some data | _ => none)

lemma writePayloads_flatMap_chunks (l : List (List ℕ)) :
    writePayloads (l.flatMap (fun c => [Ev.write c, Ev.sleepMs 10])) = l := by
  induction l with
  | nil => rfl
  | cons c l ih =>
    simp only [List.flatMap_cons, writePayloads, List.filterMap_append] at ih ⊢
    simp [ih]

lemma writePayloads_append (a b : List Ev) :
    writePayloads (a ++ b) = writePayloads a ++ writePayloads b :=
  List.filterMap_append ..

/-! ### Claim theorems -/

/-- C1 (counterexample to the claim as stated): the claim asserts that the
prompt matcher `read_until` — citing both `automate_pty.read_until` and
`ssh_client.read_until` — performs a case-insensitive search and matches any
marker whose text occurs case-insensitively in the accumulated buffer.  For
`ssh_client.read_until` this is false: with its actual call-site marker
`"password:"` and a stream delivering `b"PASSWORD:"`, the marker occurs
case-insensitively in the buffer, yet the function falls through with no
match, and `run_ssh_command` consequently takes its error path and kills the
child. -/
theorem claim_C1_counterexample :
    containsBytes (lowerBytes pwMarker) (lowerBytes (strBytes "PASSWORD:")) = true ∧
    (ssh_read_until pwMarker [strBytes "PASSWORD:"] (fun _ => 0) 10000 0).matched = false ∧
    Ev.kill ∈ runSshTrace [strBytes "PASSWORD:"] (fun _ => 0) (strBytes "pw") := by
  decide

/-- C1 (amended): the multi-marker matcher `automate_pty.read_until` appends
each chunk to the accumulation buffer and searches the entire lowercased
buffer for each lowercased marker after every read, returning the
earliest-declared marker whose text occurs case-insensitively in the buffer
(`findMarker` is exactly that first-in-declaration-order search), and
occurrences spanning chunk boundaries are found because the buffer is a
concatenation of all chunks read; when it returns no marker, no configured
marker occurs in the buffer.  The single-marker `ssh_client.read_until`, by
contrast, is case-sensitive (see the counterexample). -/
theorem claim_C1_amended_matcher (markers s : List (List ℕ)) (d : ℕ → ℕ) (T : ℕ)
    (hm : ∀ m ∈ markers, m ≠ []) :
    (∀ m, (read_until markers s d T 0).found = some m →
        findMarker markers (read_until markers s d T 0).buf = some m) ∧
    ((read_until markers s d T 0).found = none → ∀ m ∈ markers,
        containsBytes (lowerBytes m) (lowerBytes (read_until markers s d T 0).buf) = false) ∧
    (∃ k, (read_until markers s d T 0).buf = (s.take k).flatten) := by
  have h0 : ∀ m ∈ markers,
      containsBytes (lowerBytes m) (lowerBytes ([] : List ℕ)) = false := by
    intro m hmem
    have hne : lowerBytes m ≠ [] := by
      simp only [lowerBytes, ne_eq, List.map_eq_nil_iff]
      exact hm m hmem
    cases hlm : lowerBytes m with
    | nil => exact absurd hlm hne
    | cons a t => rfl
  exact readUntilAux_spec markers s d T (T / 50 + 1) 0 0 [] rfl h0

/-- C1 witness: the amended theorem applied to the marker set
`["password:"]` and the stream delivered as `b"pass"` then `b"word:"` —
the occurrence spans the two chunks and is found. -/
theorem claim_C1_witness :
    (∀ m ∈ [pwMarker], m ≠ []) ∧
    ((∀ m, (read_until [pwMarker] [strBytes "pass", strBytes "word:"] (fun _ => 0) 10000 0).found
          = some m →
        findMarker [pwMarker]
          (read_until [pwMarker] [strBytes "pass", strBytes "word:"] (fun _ => 0) 10000 0).buf
          = some m) ∧
     ((read_until [pwMarker] [strBytes "pass", strBytes "word:"] (fun _ => 0) 10000 0).found
          = none →
        ∀ m ∈ [pwMarker], containsBytes (lowerBytes m)
          (lowerBytes
            (read_until [pwMarker] [strBytes "pass", strBytes "word:"]
              (fun _ => 0) 10000 0).buf) = false) ∧
     (∃ k, (read_until [pwMarker] [strBytes "pass", strBytes "word:"] (fun _ => 0) 10000 0).buf
          = (([strBytes "pass", strBytes "word:"] : List (List ℕ)).take k).flatten)) :=
  ⟨by decide,
   claim_C1_amended_matcher [pwMarker] [strBytes "pass", strBytes "word:"] (fun _ => 0) 10000
     (by decide)⟩

/-- C8: if no configured marker ever occurs (case-insensitively) in the bytes
delivered before the first empty read at index `k`, and that read happens
while the clock is still below the timeout, then `read_until` returns no
marker together with the exact concatenation of all chunks delivered before
end-of-stream. -/
theorem claim_C8_eof_concatenation (markers s : List (List ℕ)) (d : ℕ → ℕ) (T k : ℕ)
    (hEOF : readChunk s k = [])
    (hpre : ∀ i < k, readChunk s i ≠ [])
    (hT : timeAt d k < T)
    (hnm : ∀ m ∈ markers,
      containsBytes (lowerBytes m) (lowerBytes ((s.take k).flatten)) = false) :
    read_until markers s d T 0 = ⟨(s.take k).flatten, none, k, timeAt d k⟩ :=
  read_until_eof markers s d T k hEOF hpre hT hnm

/-- C8 witness: the theorem applied to the stream `[b"ab", b"cd"]`, which
reaches end-of-stream at index 2 with no occurrence of `"password:"`. -/
theorem claim_C8_witness :
    readChunk [strBytes "ab", strBytes "cd"] 2 = [] ∧
    (∀ i < 2, readChunk [strBytes "ab", strBytes "cd"] i ≠ []) ∧
    timeAt (fun _ => 0) 2 < 10000 ∧
    (∀ m ∈ [pwMarker], containsBytes (lowerBytes m)
      (lowerBytes ((([strBytes "ab", strBytes "cd"] : List (List ℕ)).take 2).flatten)) = false) ∧
    read_until [pwMarker] [strBytes "ab", strBytes "cd"] (fun _ => 0) 10000 0 =
      ⟨(([strBytes "ab", strBytes "cd"] : List (List ℕ)).take 2).flatten, none, 2,
        timeAt (fun _ => 0) 2⟩ :=
  ⟨by decide, by decide, by decide, by decide,
   claim_C8_eof_concatenation [pwMarker] [strBytes "ab", strBytes "cd"] (fun _ => 0) 10000 2
     (by decide) (by decide) (by decide) (by decide)⟩

/-- C5: if every read returns promptly (duration 0), every read issued while
the clock is below the timeout yields data (no end-of-stream before the
timeout), and no configured marker ever occurs case-insensitively anywhere in
the stream, then `read_until` returns no marker, at a clock value strictly
below `timeout + one poll interval` (50 ms), holding the partial accumulated
buffer (a prefix-concatenation of the stream) — regardless of how many short
reads occurred. -/
theorem claim_C5_timeout_bound (markers s : List (List ℕ)) (d : ℕ → ℕ) (T : ℕ)
    (hd : ∀ i, d i = 0)
    (hne : ∀ i, 50 * i < T → readChunk s i ≠ [])
    (hnm : ∀ m ∈ markers, containsBytes (lowerBytes m) (lowerBytes s.flatten) = false) :
    (read_until markers s d T 0).found = none ∧
    (read_until markers s d T 0).rtime < T + 50 ∧
    ∃ k, (read_until markers s d T 0).buf = (s.take k).flatten :=
  readUntilAux_timeout markers s d T hd hne hnm (T / 50 + 1) 0 [] rfl (Or.inl rfl)

/-- C5 witness: timeout 120 ms with three prompt non-matching chunks
available; the loop gives up at clock 150 < 120 + 50. -/
theorem claim_C5_witness :
    (∀ i : ℕ, (fun _ : ℕ => 0) i = 0) ∧
    (∀ i : ℕ, 50 * i < 120 → readChunk [[97], [98], [99]] i ≠ []) ∧
    (∀ m ∈ [pwMarker], containsBytes (lowerBytes m)
      (lowerBytes ([[97], [98], [99]] : List (List ℕ)).flatten) = false) ∧
    ((read_until [pwMarker] [[97], [98], [99]] (fun _ => 0) 120 0).found = none ∧
     (read_until [pwMarker] [[97], [98], [99]] (fun _ => 0) 120 0).rtime < 120 + 50 ∧
     ∃ k, (read_until [pwMarker] [[97], [98], [99]] (fun _ => 0) 120 0).buf =
        (([[97], [98], [99]] : List (List ℕ)).take k).flatten) :=
  ⟨fun _ => rfl,
   by
     intro i hi
     have h3 : i < 3 := by omega
     rcases i with _ | _ | _ | i
     · decide
     · decide
     · decide
     · omega,
   by decide,
   claim_C5_timeout_bound [pwMarker] [[97], [98], [99]] (fun _ => 0) 120
     (fun _ => rfl)
     (by
     intro i hi
     have h3 : i < 3 := by omega
     rcases i with _ | _ | _ | i
     · decide
     · decide
     · decide
     · omega)
     (by decide)⟩

/-- Unlike `ssh_client.run_ssh_command` and `sync_file`, the
`automate_pty.run_with_password` driver reaps the child (`os.waitpid`) on
every path, including the kill path. -/
theorem runWithPassword_always_reaps (s : List (List ℕ)) (d : ℕ → ℕ) (pw : List ℕ) :
    Ev.wait ∈ runWithPasswordTrace s d pw := by
  simp [runWithPasswordTrace]

/-- The `sync_file` no-prompt path likewise kills without reaping. -/
theorem syncFile_kill_without_reap :
    Ev.kill ∈ (syncFile (some [104]) [strBytes "nope"] (fun _ => 0) (strBytes "pw") 0).1 ∧
    Ev.wait ∉ (syncFile (some [104]) [strBytes "nope"] (fun _ => 0) (strBytes "pw") 0).1 := by
  decide

/-- C2 (refuting the claim on the code): when `ssh_client.run_ssh_command`
never sees a credential prompt (here the stream delivers only `b"denied"` and
closes), it takes the error path, kills the child with signal 9, and returns
without any `os.waitpid`: the kill is not paired with a reap, leaking a
zombie.  (`automate_pty.run_with_password`, by contrast, reaps on every path
— see `runWithPassword_always_reaps`.) -/
theorem claim_C2_kill_without_reap :
    Ev.kill ∈ runSshTrace [strBytes "denied"] (fun _ => 0) (strBytes "pw") ∧
    Ev.wait ∉ runSshTrace [strBytes "denied"] (fun _ => 0) (strBytes "pw") := by
  decide

/-- C3 (refuting the claim on the code): `sync_file` matches the credential
prompt, injects the credential, uploads, waits for the child — and then
reports success ("File … synced") for every exit status `ec`, including every
non-zero one: the reported outcome does not distinguish exit statuses. -/
theorem claim_C3_nonzero_exit_reported_synced :
    ∀ ec : ℕ,
      (syncFile (some (strBytes "hi")) [strBytes "password:"] (fun _ => 0)
          (strBytes "pw") ec).2 = SyncResult.reportedSynced :=
  fun _ => rfl

/-- C4: for every payload `P` and chunk size `C > 0`, the paste-upload writes
exactly the `chunksOf C P` slices — `⌈|P| / C⌉` of them, each of length at
most `C`, concatenating back to `P` — followed by one newline write and one
`0x04` write, and never closes the channel. -/
theorem claim_C4_chunked_upload (P : List ℕ) (C : ℕ) (hC : 0 < C) :
    writePayloads (uploadEvents P C) = chunksOf C P ++ [[10], [4]] ∧
    (chunksOf C P).length = (P.length + C - 1) / C ∧
    (∀ c ∈ chunksOf C P, c.length ≤ C) ∧
    (chunksOf C P).flatten = P ∧
    Ev.close ∉ uploadEvents P C := by
  refine ⟨?_, chunksOfAux_length C hC P.length P (Nat.le_refl _),
    chunksOfAux_sizes C P.length P,
    chunksOfAux_flatten C hC P.length P (Nat.le_refl _), ?_⟩
  · rw [uploadEvents, writePayloads_append, writePayloads_flatMap_chunks]
    rfl
  · simp [uploadEvents, List.mem_append, List.mem_flatMap]

/-- C4 witness: the theorem applied to `P = [1, 2, 3]`, `C = 2`
(two full chunks `[1, 2]`, `[3]` — `⌈3/2⌉ = 2` writes). -/
theorem claim_C4_witness :
    0 < 2 ∧
    (writePayloads (uploadEvents [1, 2, 3] 2) = chunksOf 2 [1, 2, 3] ++ [[10], [4]] ∧
     (chunksOf 2 [1, 2, 3]).length = (([1, 2, 3] : List ℕ).length + 2 - 1) / 2 ∧
     (∀ c ∈ chunksOf 2 [1, 2, 3], c.length ≤ 2) ∧
     (chunksOf 2 [1, 2, 3]).flatten = [1, 2, 3] ∧
     Ev.close ∉ uploadEvents [1, 2, 3] 2) :=
  ⟨by decide, claim_C4_chunked_upload [1, 2, 3] 2 (by decide)⟩

/-- C6: in `run_with_password`, when the first wait matches `"yes/no"`, the
trace begins with the confirmation write `b"yes\n"`, followed — only if the
second wait finds `"password:"` — by the credential write and the relay; if
the second wait finds nothing, the remainder is the error/kill/reap tail with
no credential write.  Moreover a credential write can occur in the trace only
when the effective prompt wait returned the `"password:"` marker.  (The
hypothesis `pw ≠ "yes"` rules out the credential bytes coinciding with the
confirmation bytes.) -/
theorem claim_C6_host_confirm_then_credential (s : List (List ℕ)) (d : ℕ → ℕ)
    (pw : List ℕ) (hpw : pw ≠ strBytes "yes") :
    ((rwpFirst s d).found = some ynMarker →
      runWithPasswordTrace s d pw =
        Ev.write (strBytes "yes\n") ::
          (if (rwpSecond s d).found = some pwMarker then
            Ev.write (pw ++ [10]) ::
              ((drainFrom s (rwpSecond s d).next).map Ev.fwd ++ [Ev.wait])
          else [Ev.printErr (rwpSecond s d).buf, Ev.kill, Ev.wait])) ∧
    (Ev.write (pw ++ [10]) ∈ runWithPasswordTrace s d pw →
      (if (rwpFirst s d).found = some ynMarker then rwpSecond s d
       else rwpFirst s d).found = some pwMarker) := by
  have hyes : strBytes "yes\n" = strBytes "yes" ++ [10] := by decide
  constructor
  · intro h1
    simp only [runWithPasswordTrace, if_pos h1]
    by_cases h2 : (rwpSecond s d).found = some pwMarker <;> simp [h2]
  · intro hmem
    by_cases h1 : (rwpFirst s d).found = some ynMarker
    · rw [if_pos h1]
      by_cases h2 : (rwpSecond s d).found = some pwMarker
      · exact h2
      · exfalso
        simp only [runWithPasswordTrace, if_pos h1, if_neg h2] at hmem
        simp at hmem
        rw [hyes] at hmem
        exact hpw (List.append_cancel_right hmem)
    · rw [if_neg h1]
      by_cases h2 : (rwpFirst s d).found = some pwMarker
      · exact h2
      · exfalso
        simp [runWithPasswordTrace, h1, h2] at hmem

/-- C6 witness: the theorem applied to a stream delivering `b"yes/no"` then
`b"password:"`; the first wait matches `"yes/no"`, the trace is
confirmation write, credential write, reap. -/
theorem claim_C6_witness :
    (strBytes "pw" ≠ strBytes "yes") ∧
    (((rwpFirst [strBytes "yes/no", strBytes "password:"] (fun _ => 0)).found = some ynMarker →
      runWithPasswordTrace [strBytes "yes/no", strBytes "password:"] (fun _ => 0)
          (strBytes "pw") =
        Ev.write (strBytes "yes\n") ::
          (if (rwpSecond [strBytes "yes/no", strBytes "password:"] (fun _ => 0)).found
              = some pwMarker then
            Ev.write (strBytes "pw" ++ [10]) ::
              ((drainFrom [strBytes "yes/no", strBytes "password:"]
                  (rwpSecond [strBytes "yes/no", strBytes "password:"]
                    (fun _ => 0)).next).map Ev.fwd ++ [Ev.wait])
          else
            [Ev.printErr (rwpSecond [strBytes "yes/no", strBytes "password:"]
                (fun _ => 0)).buf, Ev.kill, Ev.wait])) ∧
     (Ev.write (strBytes "pw" ++ [10]) ∈
        runWithPasswordTrace [strBytes "yes/no", strBytes "password:"] (fun _ => 0)
          (strBytes "pw") →
      (if (rwpFirst [strBytes "yes/no", strBytes "password:"] (fun _ => 0)).found
          = some ynMarker then
        rwpSecond [strBytes "yes/no", strBytes "password:"] (fun _ => 0)
      else rwpFirst [strBytes "yes/no", strBytes "password:"] (fun _ => 0)).found
        = some pwMarker)) :=
  ⟨by decide,
   claim_C6_host_confirm_then_credential [strBytes "yes/no", strBytes "password:"]
     (fun _ => 0) (strBytes "pw") (by decide)⟩

/-- C7: the recursive-copy driver has no separate prompt-wait phase — its
whole channel trace is the relay loop's per-chunk inline credential writes
(one per chunk read that contains the marker), then the reap, then the
report; the reported outcome is decided solely by the child's exit status
(`ec = 0` iff success), and on non-zero exit status the full accumulated
transcript (the concatenation of every chunk read) is printed. -/
theorem claim_C7_scp_relay_protocol (s : List (List ℕ)) (pw : List ℕ) (ec : ℕ) :
    (runScp s pw ec).2 = (if ec = 0 then ScpOutcome.success else ScpOutcome.failure) ∧
    (runScp s pw ec).1 =
      (drainFrom s 0).filterMap
          (fun c => if scpHit c then some (Ev.write (pw ++ [10])) else none) ++
        [Ev.wait] ++
        (if ec = 0 then [Ev.printOut (strBytes "Transfer successful")]
         else [Ev.printOut (strBytes "Transfer failed"),
           Ev.printOut ((drainFrom s 0).flatten)]) := by
  constructor
  · rfl
  · show (scpRelay s pw).2 ++ _ ++ _ = _
    rw [scpRelay, scpRelayAux_spec s pw (s.length + 1) 0]
    rfl

/-- C9: credential injection in the scp relay loop is not one-shot — the
number of credential writes equals the number of chunks read (before
end-of-stream) that contain `"password:"` or `"Password:"`; a marker
occurring again in a later chunk triggers another write. -/
theorem claim_C9_scp_reinjection (s : List (List ℕ)) (pw : List ℕ) :
    ((scpRelay s pw).2.countP (fun e => decide (e = Ev.write (pw ++ [10])))) =
      (drainFrom s 0).countP scpHit := by
  rw [scpRelay, scpRelayAux_spec s pw (s.length + 1) 0]
  exact countP_filterMap_const (Ev.write (pw ++ [10])) scpHit (drainAux s (s.length + 1) 0)

/-- C10: `sync_file` reads the local file before `pty.fork()`.  If opening or
reading the file raises (modelled by `file = none`), the call produces no
events at all — in particular no child is spawned and no channel is created —
and reports the local-file error; when the file is read successfully, the
very first event is the fork. -/
theorem claim_C10_local_read_before_spawn (s : List (List ℕ)) (d : ℕ → ℕ)
    (pw : List ℕ) (ec : ℕ) :
    syncFile none s d pw ec = ([], SyncResult.fileError) ∧
    ∀ content : List ℕ, (syncFile (some content) s d pw ec).1.head? = some Ev.spawn := by
  refine ⟨rfl, ?_⟩
  intro content
  simp only [syncFile]
  split <;> rfl

end ArtisNova
